import Mathlib

/-!
Verification of the OracleBot-PolyMarket backtesting core.

This file shallowly embeds the combinatorial method-selection and
backtesting engine (src/engine/fitness.py, src/engine/backtest.py,
src/engine/combinator.py, src/methods/__init__.py, src/config.py,
src/data/models.py) in Lean 4 and proves or refutes the stated
properties of that engine.

Modelling conventions:
  * Python floats are modelled as rationals (ℚ); all the formulas under
    scrutiny are exact arithmetic identities, so ℚ is the faithful
    idealisation.
  * `datetime` values are modelled as rational timestamps (seconds);
    only their linear order and differences are used by the engine.
  * A detector callable that may raise is modelled as a function
    returning `Option MethodResult`; `none` models a raised exception.
  * `backtest_combo` returns `Except Unit ComboResults`: the `error`
    case models the `KeyError` escaping from the method-lookup pass.
  * The `tested_at` wall-clock field and the opaque `metadata` dict are
    omitted: the engine never reads them.
-/

namespace OracleBot

/-- Market record, from src/data/models.py (`Market`). Timestamps are
rational seconds; `volume`, `title`, `description` are never read by the
backtesting core and are omitted. -/
structure Market where
  id : String
  created_at : ℚ
  end_date : ℚ
  resolved : Bool
  outcome : Option String
  deriving DecidableEq, Repr

/-- Bet record, from src/data/models.py (`Bet`). -/
structure Bet where
  market_id : String
  wallet : String
  side : String
  amount : ℚ
  odds : ℚ
  timestamp : ℚ
  deriving DecidableEq, Repr

/-- Wallet record, from src/data/models.py (`Wallet`); read-only input. -/
structure Wallet where
  address : String
  total_bets : Nat
  total_volume : ℚ
  win_rate : ℚ
  rationality_score : ℚ
  deriving DecidableEq, Repr

/-- Detector output, from src/data/models.py (`MethodResult`); the opaque
`metadata` dict is omitted (never read by the engine). -/
structure MethodResult where
  signal : ℚ
  confidence : ℚ
  filtered_bets : List Bet
  deriving DecidableEq, Repr

/-- Combo evaluation record, from src/data/models.py (`ComboResults`);
the wall-clock `tested_at` field is omitted. -/
structure ComboResults where
  combo_id : String
  methods_used : List String
  accuracy : ℚ
  edge_vs_market : ℚ
  false_positive_rate : ℚ
  complexity : Nat
  fitness_score : ℚ
  deriving DecidableEq, Repr

/-- A detector callable: src/methods/__init__.py `MethodFn`.  `none`
models the callable raising an exception. -/
def MethodFn : Type :=
  Market → List Bet → (String → Option Wallet) → Option MethodResult

/-! ### Configuration constants, from src/config.py -/

def FITNESS_W_ACCURACY : ℚ := 35 / 100

def FITNESS_W_EDGE : ℚ := 35 / 100

def FITNESS_W_FALSE_POS : ℚ := 20 / 100

def FITNESS_W_COMPLEXITY : ℚ := 10 / 100

def TOTAL_METHODS : Nat := 25

def BACKTEST_CUTOFF_FRACTION : ℚ := 70 / 100

/-- src/engine/backtest.py line 16. -/
def MAX_BETS_PER_MARKET : Nat := 500

/-! ### Fitness, from src/engine/fitness.py -/

/-- `calculate_fitness`, src/engine/fitness.py lines 8-23, embedded
verbatim: note the hard-coded divisor 24 in the complexity term. -/
def calculate_fitness (cr : ComboResults) : ℚ :=
  cr.accuracy * FITNESS_W_ACCURACY
    + cr.edge_vs_market * FITNESS_W_EDGE
    - cr.false_positive_rate * FITNESS_W_FALSE_POS
    - ((cr.complexity : ℚ) / 24) * FITNESS_W_COMPLEXITY

/-- The fitness formula as the specification states it (spec §4.5 and the
comment at src/config.py lines 23-24): the complexity normalizer is the
configured constant `TOTAL_METHODS`. -/
def calculate_fitness_spec (cr : ComboResults) : ℚ :=
  cr.accuracy * FITNESS_W_ACCURACY
    + cr.edge_vs_market * FITNESS_W_EDGE
    - cr.false_positive_rate * FITNESS_W_FALSE_POS
    - ((cr.complexity : ℚ) / (TOTAL_METHODS : ℚ)) * FITNESS_W_COMPLEXITY

/-- A concrete ComboResults used to exhibit the divergence between the
code's complexity normalizer (24) and the configured `TOTAL_METHODS`. -/
def crC1 : ComboResults :=
  { combo_id := "X"
    methods_used := []
    accuracy := 0
    edge_vs_market := 0
    false_positive_rate := 0
    complexity := 24
    fitness_score := 0 }

/-! ### Signal aggregation, from src/engine/backtest.py -/

/-- `_aggregate_signals`, src/engine/backtest.py lines 19-30:
`total_weight` is the sum of confidences, `signal` the confidence-weighted
mean signal (clamped from both sides), `confidence` the mean confidence
(clamped from above only, as in the source). -/
def aggregate_signals (results : List MethodResult) : ℚ × ℚ :=
  if results.isEmpty then (0, 0)
  else if (results.map (·.confidence)).sum = 0 then (0, 0)
  else
    (max (-1) (min 1 ((results.map (fun r => r.signal * r.confidence)).sum
        / (results.map (·.confidence)).sum)),
     min 1 ((results.map (·.confidence)).sum / (results.length : ℚ)))

/-! ### The detector chain, from the market loop of `backtest_combo`
(src/engine/backtest.py lines 91-101).  `run_chain` returns the list of
successful MethodResults together with the final `current_bets` cursor;
a detector returning `none` models a raised (and caught) exception. -/

def run_chain (market : Market) (wallets : String → Option Wallet) :
    List MethodFn → List Bet → List MethodResult × List Bet
  | [], current_bets => ([], current_bets)
  | fn :: rest, current_bets =>
    match fn market current_bets wallets with
    | some result =>
      let next_bets := if result.filtered_bets.isEmpty then current_bets
                       else result.filtered_bets
      let (rs, final) := run_chain market wallets rest next_bets
      (result :: rs, final)
    | none => run_chain market wallets rest current_bets

/-! ### The per-market accumulators of `backtest_combo` -/

/-- The running statistics of `backtest_combo`
(src/engine/backtest.py lines 54-58). -/
structure BState where
  correct : Nat
  total_markets : Nat
  edge_sum : ℚ
  false_positives : Nat
  high_confidence_preds : Nat
  deriving DecidableEq, Repr

def BState.init : BState := ⟨0, 0, 0, 0, 0⟩

/-- Market lifespan in seconds (src/engine/backtest.py line 71). -/
def lifespanOf (m : Market) : ℚ := m.end_date - m.created_at

/-- Visibility cutoff time (src/engine/backtest.py line 75). -/
def cutoffTime (m : Market) (cutoff_fraction : ℚ) : ℚ :=
  m.created_at + lifespanOf m * cutoff_fraction

/-- The bets visible at the cutoff (src/engine/backtest.py line 76). -/
def visibleOf (m : Market) (market_bets : List Bet) (cutoff_fraction : ℚ) :
    List Bet :=
  market_bets.filter (fun b => decide (b.timestamp ≤ cutoffTime m cutoff_fraction))

/-- Cap to the most recent `MAX_BETS_PER_MARKET` bets
(src/engine/backtest.py lines 81-82): Python `visible_bets[-N:]`. -/
def capBets (visible : List Bet) : List Bet :=
  if visible.length > MAX_BETS_PER_MARKET then
    visible.drop (visible.length - MAX_BETS_PER_MARKET)
  else visible

/-- Restrict the wallet universe to the addresses appearing in this
market's visible bets (src/engine/backtest.py lines 85-86). -/
def restrictWallets (wallets : String → Option Wallet) (visible : List Bet) :
    String → Option Wallet :=
  fun a => if visible.any (fun b => b.wallet == a) then wallets a else none

/-- Median of Python's `statistics.median` on rationals: middle element of
the sorted list for odd length, mean of the two middle elements for even
length (src/engine/backtest.py line 118 uses it on a non-empty list). -/
def medianQ (xs : List ℚ) : ℚ :=
  let s := xs.insertionSort (· ≤ ·)
  let n := xs.length
  if n % 2 = 1 then s.getD (n / 2) 0
  else (s.getD (n / 2 - 1) 0 + s.getD (n / 2) 0) / 2

/-- The naive market-odds baseline
(src/engine/backtest.py lines 117-118): median of the visible bets' odds,
0.5 when there are none. -/
def marketOdds (bets : List Bet) : ℚ :=
  let yes_probs := bets.map (·.odds)
  if yes_probs.isEmpty then 1 / 2 else medianQ yes_probs

/-- `predicted = "YES" if signal > 0 else "NO"`
(src/engine/backtest.py line 108). -/
def predictedOf (signal : ℚ) : String := if signal > 0 then "YES" else "NO"

/-- `market_implied = "YES" if market_odds > 0.5 else "NO"`
(src/engine/backtest.py line 119). -/
def impliedOf (odds : ℚ) : String := if odds > 1 / 2 then "YES" else "NO"

/-- Update the accumulators with one evaluated market
(src/engine/backtest.py lines 104-123), given the aggregated
(signal, confidence), the resolved outcome and the visible bets.  Note
the `elif` at line 112: a false positive is a mismatch *with*
confidence > 0.3, and every false positive is also counted at line 115
as a high-confidence prediction. -/
def scoreMarket (st : BState) (signal confidence : ℚ) (actual : String)
    (visible : List Bet) : BState :=
  { correct := if predictedOf signal = actual then st.correct + 1 else st.correct
    total_markets := st.total_markets + 1
    edge_sum :=
      if predictedOf signal = actual ∧ impliedOf (marketOdds visible) ≠ actual then
        st.edge_sum + |signal|
      else st.edge_sum
    false_positives :=
      if predictedOf signal ≠ actual ∧ confidence > 3 / 10 then
        st.false_positives + 1
      else st.false_positives
    high_confidence_preds :=
      if confidence > 3 / 10 then st.high_confidence_preds + 1
      else st.high_confidence_preds }

/-- The successful results of the detector chain on a market
(src/engine/backtest.py lines 90-101), with the wallet universe already
restricted to the visible bets' addresses. -/
def chainResultsOf (method_fns : List MethodFn) (market : Market)
    (wallets : String → Option Wallet) (visible : List Bet) :
    List MethodResult :=
  (run_chain market (restrictWallets wallets visible) method_fns visible).1

/-- One iteration of the market loop of `backtest_combo`
(src/engine/backtest.py lines 64-123): eligibility checks, visibility
window, detector chain, aggregation, accumulation.  Returns the state
unchanged when the market is skipped. -/
def processMarket (method_fns : List MethodFn)
    (bets_by_market : String → Option (List Bet))
    (wallets : String → Option Wallet) (cutoff_fraction : ℚ)
    (st : BState) (market : Market) : BState :=
  if !market.resolved then st else
  match market.outcome with
  | none => st
  | some actual =>
    match bets_by_market market.id with
    | none => st
    | some market_bets =>
      if market_bets.length < 5 then st else
      if lifespanOf market ≤ 0 then st else
      if (visibleOf market market_bets cutoff_fraction).length < 3 then st else
      if (chainResultsOf method_fns market wallets
            (capBets (visibleOf market market_bets cutoff_fraction))).isEmpty then st
      else
        scoreMarket st
          (aggregate_signals (chainResultsOf method_fns market wallets
            (capBets (visibleOf market market_bets cutoff_fraction)))).1
          (aggregate_signals (chainResultsOf method_fns market wallets
            (capBets (visibleOf market market_bets cutoff_fraction)))).2
          actual
          (capBets (visibleOf market market_bets cutoff_fraction))

/-! ### `backtest_combo`, src/engine/backtest.py lines 46-139 -/

/-- Canonical combo id: `",".join(sorted(combo))`
(src/engine/backtest.py line 62). -/
def comboId (combo : List String) : String :=
  String.intercalate "," (combo.insertionSort (fun a b => a ≤ b))

/-- The ComboResults fields before the fitness assignment
(src/engine/backtest.py lines 125-137). -/
def rawComboResults (combo : List String) (st : BState) : ComboResults :=
  { combo_id := comboId combo
    methods_used := combo
    accuracy := if st.total_markets > 0 then
        (st.correct : ℚ) / (st.total_markets : ℚ) else 0
    edge_vs_market := if st.total_markets > 0 then
        st.edge_sum / (st.total_markets : ℚ) else 0
    false_positive_rate := if st.high_confidence_preds > 0 then
        (st.false_positives : ℚ) / (st.high_confidence_preds : ℚ) else 0
    complexity := combo.length
    fitness_score := 0 }

/-- Assemble the final ComboResults from the accumulated statistics
(src/engine/backtest.py lines 125-138): the raw record with
`cr.fitness_score = calculate_fitness(cr)` applied. -/
def mkComboResults (combo : List String) (st : BState) : ComboResults :=
  { rawComboResults combo st with
    fitness_score := calculate_fitness (rawComboResults combo st) }

/-- The method lookup pass of `backtest_combo`
(src/engine/backtest.py line 60: the `method_fns` list comprehension over
`get_method`, with `get_method` from src/methods/__init__.py lines 44-45).
`none` models the `KeyError` raised on the first unregistered id. -/
def lookupMethods (registry : String → Option MethodFn) :
    List String → Option (List MethodFn)
  | [] => some []
  | mid :: rest =>
    match registry mid with
    | none => none
    | some fn =>
      match lookupMethods registry rest with
      | none => none
      | some fns => some (fn :: fns)

/-- `backtest_combo`, src/engine/backtest.py lines 46-139: the method
lookup pass (line 60, modelled by `lookupMethods`) followed by the market
loop and the assembly of the scored ComboResults. -/
def backtest_combo (registry : String → Option MethodFn) (combo : List String)
    (markets : List Market) (bets_by_market : String → Option (List Bet))
    (wallets : String → Option Wallet) (cutoff_fraction : ℚ) :
    Except Unit ComboResults :=
  match lookupMethods registry combo with
  | none => Except.error ()
  | some method_fns =>
    let final := markets.foldl
      (processMarket method_fns bets_by_market wallets cutoff_fraction)
      BState.init
    Except.ok (mkComboResults combo final)

/-! ### Concrete inputs used by counterexamples and witnesses -/

/-- A detector that always returns the same signal and confidence and
never filters. -/
def constDetector (s c : ℚ) : MethodFn := fun _ _ _ => some ⟨s, c, []⟩

/-- A registry offering the single method id "D5". -/
def registryD5 : String → Option MethodFn :=
  fun mid => if mid = "D5" then some (constDetector 1 1) else none

/-- The ComboResults produced by the embedded `backtest_combo` for combo
["D5"] on an empty market list. -/
def crEmptyRun : ComboResults :=
  { combo_id := "D5"
    methods_used := ["D5"]
    accuracy := 0
    edge_vs_market := 0
    false_positive_rate := 0
    complexity := 1
    fitness_score := -(1 / 240) }

end OracleBot

namespace OracleBot

/-- C1: the claim states the fitness of every ComboResults uses
`config.TOTAL_METHODS` (= 25) as the one complexity normalizer.  The code
(src/engine/fitness.py line 21) hard-codes 24 instead, so `calculate_fitness`
disagrees with the formula documented in src/config.py lines 23-24 and
displayed by the GUI (src/gui/pages/5_Combo_Results.py line 69, which uses
`config.TOTAL_METHODS`): at a result of complexity 24 with all other
statistics 0, the code yields −1/10 while the configured formula yields
−24/250 = −12/125. -/
theorem C1_fitness_normalizer_diverges :
    calculate_fitness crC1 = -(1 / 10) ∧
    calculate_fitness_spec crC1 = -(12 / 125) ∧
    calculate_fitness crC1 ≠ calculate_fitness_spec crC1 := by
  refine ⟨?_, ?_, ?_⟩ <;>
    norm_num [calculate_fitness, calculate_fitness_spec, crC1,
      FITNESS_W_ACCURACY, FITNESS_W_EDGE, FITNESS_W_FALSE_POS,
      FITNESS_W_COMPLEXITY, TOTAL_METHODS]

/-- C3: signal aggregation.  For a non-empty result list with positive
total confidence weight, `_aggregate_signals` returns the
confidence-weighted mean signal clamped to [−1, 1] paired with the mean
confidence clamped to [0, 1]; for the empty list, or any list whose
confidences sum to 0, it returns exactly (0, 0), never dividing by
zero. -/
theorem C3_aggregate_signals_spec (results : List MethodResult) :
    (results ≠ [] → 0 < (results.map (·.confidence)).sum →
      aggregate_signals results =
        (max (-1) (min 1 ((results.map (fun r => r.signal * r.confidence)).sum
              / (results.map (·.confidence)).sum)),
         max 0 (min 1 ((results.map (·.confidence)).sum / (results.length : ℚ)))))
    ∧ aggregate_signals [] = (0, 0)
    ∧ ((results.map (·.confidence)).sum = 0 →
        aggregate_signals results = (0, 0)) := by
  refine ⟨fun hne hpos => ?_, by simp [aggregate_signals], fun hzero => ?_⟩
  · have hlen : 0 < results.length := List.length_pos.mpr hne
    have hlenQ : (0 : ℚ) < (results.length : ℚ) := by exact_mod_cast hlen
    have hconf : 0 < (results.map (·.confidence)).sum / (results.length : ℚ) :=
      div_pos hpos hlenQ
    have hclamp :
        max 0 (min 1 ((results.map (·.confidence)).sum / (results.length : ℚ)))
          = min 1 ((results.map (·.confidence)).sum / (results.length : ℚ)) :=
      max_eq_right (le_min zero_le_one hconf.le)
    rw [hclamp]
    unfold aggregate_signals
    rw [if_neg (by simpa using hne), if_neg hpos.ne']
  · unfold aggregate_signals
    by_cases hne : results.isEmpty
    · rw [if_pos hne]
    · rw [if_neg hne, if_pos hzero]

/-- Witness for C3 at a concrete two-element result list: the weighted
mean signal is (1·(1/2) + (−1)·(1/4)) / (3/4) = 1/3 and the mean
confidence is (3/4)/2 = 3/8, neither clamp active. -/
theorem C3_aggregate_signals_witness :
    aggregate_signals [⟨1, 1/2, []⟩, ⟨-1, 1/4, []⟩] = (1/3, 3/8) := by
  have h := (C3_aggregate_signals_spec [⟨1, 1/2, []⟩, ⟨-1, 1/4, []⟩]).1
    (by simp) (by norm_num)
  rw [h]
  norm_num [min_def, max_def]

/-- A `lookupMethods` pass over a combo containing an unregistered id
fails, whatever else the combo contains. -/
theorem lookupMethods_eq_none {registry : String → Option MethodFn}
    {mid : String} :
    ∀ {combo : List String}, mid ∈ combo → registry mid = none →
      lookupMethods registry combo = none := by
  intro combo hmem hmiss
  induction combo with
  | nil => cases hmem
  | cons c rest ih =>
    rcases List.mem_cons.mp hmem with hc | hrest
    · subst hc
      unfold lookupMethods
      rw [hmiss]
    · unfold lookupMethods
      cases hreg : registry c with
      | none => rfl
      | some fn => rw [ih hrest]

/-- C10: a combo containing a method id absent from the registry makes
`backtest_combo` raise `KeyError` during the initial method-lookup pass
(src/engine/backtest.py line 60), for every market list, bet mapping,
wallet mapping and cutoff — i.e. before any market is examined, before
any statistic accumulates, and without ever producing a ComboResults. -/
theorem C10_unknown_method_raises (registry : String → Option MethodFn)
    (combo : List String) (markets : List Market)
    (bets_by_market : String → Option (List Bet))
    (wallets : String → Option Wallet) (cutoff_fraction : ℚ)
    (mid : String) (hmem : mid ∈ combo) (hmiss : registry mid = none) :
    backtest_combo registry combo markets bets_by_market wallets
      cutoff_fraction = Except.error () := by
  unfold backtest_combo
  rw [lookupMethods_eq_none hmem hmiss]

/-- Witness for C10: the id "S1" is not in `registryD5`, so backtesting
the combo ["D5", "S1"] errors even on a non-trivial market list. -/
theorem C10_unknown_method_raises_witness :
    backtest_combo registryD5 ["D5", "S1"]
      [⟨"m", 0, 100, true, some "YES"⟩] (fun _ => none) (fun _ => none)
      BACKTEST_CUTOFF_FRACTION = Except.error () :=
  C10_unknown_method_raises registryD5 ["D5", "S1"]
    [⟨"m", 0, 100, true, some "YES"⟩] (fun _ => none) (fun _ => none)
    BACKTEST_CUTOFF_FRACTION "S1" (by decide) (by simp [registryD5])

/-! ### Accumulator invariants of the market loop -/

/-- The loop invariant of `backtest_combo`: every counted correct market
and every high-confidence prediction is a counted market, every false
positive is a high-confidence prediction, and the edge accumulator is
non-negative. -/
def BInv (st : BState) : Prop :=
  st.correct ≤ st.total_markets
    ∧ st.false_positives ≤ st.high_confidence_preds
    ∧ st.high_confidence_preds ≤ st.total_markets
    ∧ 0 ≤ st.edge_sum

theorem BInv_init : BInv BState.init :=
  ⟨le_refl 0, le_refl 0, le_refl 0, le_refl 0⟩

theorem scoreMarket_inv {st : BState} (h : BInv st) (signal confidence : ℚ)
    (actual : String) (visible : List Bet) :
    BInv (scoreMarket st signal confidence actual visible) := by
  obtain ⟨h1, h2, h3, h4⟩ := h
  unfold BInv scoreMarket
  refine ⟨?_, ?_, ?_, ?_⟩ <;> simp only <;> split_ifs <;>
    first
      | omega
      | exact h4
      | exact add_nonneg h4 (abs_nonneg signal)
      | tauto

theorem processMarket_inv {st : BState} (h : BInv st)
    (method_fns : List MethodFn) (bets_by_market : String → Option (List Bet))
    (wallets : String → Option Wallet) (cutoff_fraction : ℚ) (market : Market) :
    BInv (processMarket method_fns bets_by_market wallets cutoff_fraction
      st market) := by
  unfold processMarket
  split
  · exact h
  split
  · exact h
  split
  · exact h
  split
  · exact h
  split
  · exact h
  split
  · exact h
  split
  · exact h
  exact scoreMarket_inv h _ _ _ _

theorem foldl_processMarket_inv (method_fns : List MethodFn)
    (bets_by_market : String → Option (List Bet))
    (wallets : String → Option Wallet) (cutoff_fraction : ℚ) :
    ∀ (markets : List Market) (st : BState), BInv st →
      BInv (markets.foldl
        (processMarket method_fns bets_by_market wallets cutoff_fraction) st)
  | [], _, h => h
  | _ :: rest, _, h =>
    foldl_processMarket_inv method_fns bets_by_market wallets cutoff_fraction
      rest _ (processMarket_inv h method_fns bets_by_market wallets
        cutoff_fraction _)

/-- The statistics of `rawComboResults` are in range whenever the
accumulators satisfy the loop invariant. -/
theorem rawComboResults_ranges (combo : List String) {st : BState}
    (h : BInv st) :
    0 ≤ (rawComboResults combo st).accuracy
      ∧ (rawComboResults combo st).accuracy ≤ 1
      ∧ 0 ≤ (rawComboResults combo st).edge_vs_market
      ∧ 0 ≤ (rawComboResults combo st).false_positive_rate
      ∧ (rawComboResults combo st).false_positive_rate ≤ 1 := by
  obtain ⟨h1, h2, h3, h4⟩ := h
  unfold rawComboResults
  simp only
  refine ⟨?_, ?_, ?_, ?_, ?_⟩ <;> split_ifs with hpos
  · exact div_nonneg (Nat.cast_nonneg _) (Nat.cast_nonneg _)
  · exact le_refl 0
  · exact (div_le_one (by exact_mod_cast hpos)).mpr (by exact_mod_cast h1)
  · exact zero_le_one
  · exact div_nonneg h4 (Nat.cast_nonneg _)
  · exact le_refl 0
  · exact div_nonneg (Nat.cast_nonneg _) (Nat.cast_nonneg _)
  · exact le_refl 0
  · exact (div_le_one (by exact_mod_cast hpos)).mpr (by exact_mod_cast h2)
  · exact zero_le_one

/-! ### Detector failure isolation -/

/-- Unfolding lemma for `run_chain` on a detector that raises: the chain
continues on the remaining detectors with both the collected results and
the `current_bets` cursor unchanged. -/
theorem run_chain_cons_none {market : Market}
    {wallets : String → Option Wallet} {g : MethodFn} {rest : List MethodFn}
    {bets : List Bet} (hg : g market bets wallets = none) :
    run_chain market wallets (g :: rest) bets
      = run_chain market wallets rest bets := by
  simp only [run_chain]
  rw [hg]

/-- Unfolding lemma for `run_chain` on a successful detector: its result
is collected and the cursor passed on is `filtered_bets` when non-empty,
the incoming bets otherwise. -/
theorem run_chain_cons_some {market : Market}
    {wallets : String → Option Wallet} {g : MethodFn} {rest : List MethodFn}
    {bets : List Bet} {r : MethodResult}
    (hg : g market bets wallets = some r) :
    run_chain market wallets (g :: rest) bets
      = (r :: (run_chain market wallets rest
            (if r.filtered_bets.isEmpty then bets else r.filtered_bets)).1,
         (run_chain market wallets rest
            (if r.filtered_bets.isEmpty then bets else r.filtered_bets)).2) := by
  simp only [run_chain]
  rw [hg]

/-- A chain step on a detector that raises (returns `none`) leaves both
the collected results and the `current_bets` cursor unchanged: the
failing detector is exactly dropped from the chain. -/
theorem run_chain_failed_removed (market : Market)
    (wallets : String → Option Wallet) (f : MethodFn)
    (hf : ∀ b, f market b wallets = none) :
    ∀ (pre post : List MethodFn) (bets : List Bet),
      run_chain market wallets (pre ++ f :: post) bets
        = run_chain market wallets (pre ++ post) bets := by
  intro pre
  induction pre with
  | nil =>
    intro post bets
    rw [List.nil_append, List.nil_append, run_chain_cons_none (hf bets)]
  | cons g rest ih =>
    intro post bets
    rw [List.cons_append, List.cons_append]
    cases hg : g market bets wallets with
    | none => rw [run_chain_cons_none hg, run_chain_cons_none hg, ih]
    | some r => rw [run_chain_cons_some hg, run_chain_cons_some hg, ih]

/-- A chain all of whose detectors raise produces no results and leaves
the cursor untouched. -/
theorem run_chain_all_failed (market : Market)
    (wallets : String → Option Wallet) :
    ∀ (fns : List MethodFn), (∀ fn ∈ fns, ∀ b, fn market b wallets = none) →
      ∀ (bets : List Bet), run_chain market wallets fns bets = ([], bets)
  | [], _, _ => rfl
  | g :: rest, hf, bets => by
    rw [run_chain_cons_none (hf g (List.mem_cons_self g rest) bets)]
    exact run_chain_all_failed market wallets rest
      (fun fn hfn => hf fn (List.mem_cons_of_mem g hfn)) bets

/-- A market on which every detector raises is skipped entirely: the
accumulators (including `total_markets`) are unchanged. -/
theorem processMarket_all_failed (method_fns : List MethodFn)
    (bets_by_market : String → Option (List Bet))
    (wallets : String → Option Wallet) (cutoff_fraction : ℚ)
    (st : BState) (market : Market)
    (hf : ∀ fn ∈ method_fns, ∀ b w, fn market b w = none) :
    processMarket method_fns bets_by_market wallets cutoff_fraction st market
      = st := by
  have hchain : ∀ visible, chainResultsOf method_fns market wallets visible
      = [] := by
    intro visible
    unfold chainResultsOf
    rw [run_chain_all_failed market (restrictWallets wallets visible)
      method_fns (fun fn hfn b => hf fn hfn b _) visible]
  unfold processMarket
  split
  · rfl
  split
  · rfl
  split
  · rfl
  split
  · rfl
  split
  · rfl
  split
  · rfl
  split
  · rfl
  · rename_i hne
    exact absurd (by rw [hchain]; rfl) hne

/-- If the method lookup pass succeeds, `backtest_combo` always returns a
ComboResults: nothing inside the market loop can escape it. -/
theorem backtest_combo_ok_of_lookup (registry : String → Option MethodFn)
    (combo : List String) (markets : List Market)
    (bets_by_market : String → Option (List Bet))
    (wallets : String → Option Wallet) (cutoff_fraction : ℚ)
    (fns : List MethodFn) (hlook : lookupMethods registry combo = some fns) :
    ∃ cr, backtest_combo registry combo markets bets_by_market wallets
      cutoff_fraction = Except.ok cr :=
  ⟨mkComboResults combo
    (markets.foldl (processMarket fns bets_by_market wallets cutoff_fraction)
      BState.init),
   by unfold backtest_combo; rw [hlook]⟩

/-- C4: detector failure isolation inside `backtest_combo`
(src/engine/backtest.py lines 91-106).  (1) A detector that raises is
excluded from the chain while every other detector still executes with
an unchanged cursor; (2) a market on which every detector raised is
skipped entirely, contributing nothing to `total_markets` or any other
accumulator; (3) once the method lookup succeeds, `backtest_combo`
always returns a ComboResults — no detector exception propagates out. -/
theorem C4_detector_failure_isolation :
    (∀ (market : Market) (wallets : String → Option Wallet) (f : MethodFn),
      (∀ b, f market b wallets = none) →
      ∀ (pre post : List MethodFn) (bets : List Bet),
        run_chain market wallets (pre ++ f :: post) bets
          = run_chain market wallets (pre ++ post) bets)
    ∧ (∀ (method_fns : List MethodFn)
        (bets_by_market : String → Option (List Bet))
        (wallets : String → Option Wallet) (cutoff_fraction : ℚ)
        (st : BState) (market : Market),
        (∀ fn ∈ method_fns, ∀ b w, fn market b w = none) →
        processMarket method_fns bets_by_market wallets cutoff_fraction
          st market = st)
    ∧ (∀ (registry : String → Option MethodFn) (combo : List String)
        (markets : List Market) (bets_by_market : String → Option (List Bet))
        (wallets : String → Option Wallet) (cutoff_fraction : ℚ)
        (fns : List MethodFn),
        lookupMethods registry combo = some fns →
        ∃ cr, backtest_combo registry combo markets bets_by_market wallets
          cutoff_fraction = Except.ok cr) :=
  ⟨fun market wallets f hf => run_chain_failed_removed market wallets f hf,
   fun method_fns bets_by_market wallets cutoff_fraction st market hf =>
     processMarket_all_failed method_fns bets_by_market wallets
       cutoff_fraction st market hf,
   fun registry combo markets bets_by_market wallets cutoff_fraction fns h =>
     backtest_combo_ok_of_lookup registry combo markets bets_by_market
       wallets cutoff_fraction fns h⟩

/-- A detector that always raises. -/
def failDet : MethodFn := fun _ _ _ => none

/-- A concrete resolved market for the C4 and C8 witnesses. -/
def mWitness : Market := ⟨"m4", 0, 100, true, some "YES"⟩

/-- Witness for C4 at concrete inputs: dropping an always-raising
detector from a two-detector chain, skipping a market whose only
detector raises, and a successful lookup yielding a result. -/
theorem C4_detector_failure_isolation_witness :
    run_chain mWitness (fun _ => none) ([constDetector 1 1] ++ failDet :: [])
        []
      = run_chain mWitness (fun _ => none) ([constDetector 1 1] ++ []) []
    ∧ processMarket [failDet] (fun _ => none) (fun _ => none)
        BACKTEST_CUTOFF_FRACTION BState.init mWitness = BState.init
    ∧ ∃ cr, backtest_combo registryD5 ["D5"] [] (fun _ => none)
        (fun _ => none) BACKTEST_CUTOFF_FRACTION = Except.ok cr :=
  ⟨C4_detector_failure_isolation.1 mWitness (fun _ => none) failDet
      (fun _ => rfl) [constDetector 1 1] [] [],
   C4_detector_failure_isolation.2.1 [failDet] (fun _ => none)
      (fun _ => none) BACKTEST_CUTOFF_FRACTION BState.init mWitness
      (by
        intro fn hfn b w
        rw [List.mem_singleton] at hfn
        subst hfn
        rfl),
   C4_detector_failure_isolation.2.2 registryD5 ["D5"] [] (fun _ => none)
      (fun _ => none) BACKTEST_CUTOFF_FRACTION [constDetector 1 1]
      (by simp [lookupMethods, registryD5])⟩

/-- C8: a market that is unresolved (or has no recorded outcome), has
fewer than 5 total bets (including a missing bets-by-market entry), has
non-positive lifespan, or has fewer than 3 visible bets at the cutoff
time, is skipped by the market loop and contributes nothing to
`total_markets` or any accumulator (src/engine/backtest.py lines
64-78). -/
theorem C8_ineligible_market_skipped (method_fns : List MethodFn)
    (bets_by_market : String → Option (List Bet))
    (wallets : String → Option Wallet) (cutoff_fraction : ℚ)
    (st : BState) (market : Market)
    (h : (market.resolved = false ∨ market.outcome = none)
      ∨ (∀ bs, bets_by_market market.id = some bs → bs.length < 5)
      ∨ lifespanOf market ≤ 0
      ∨ (∀ bs, bets_by_market market.id = some bs →
          (visibleOf market bs cutoff_fraction).length < 3)) :
    processMarket method_fns bets_by_market wallets cutoff_fraction st market
      = st := by
  unfold processMarket
  split
  · rfl
  rename_i hres
  split
  · rfl
  rename_i actual houtcome
  split
  · rfl
  rename_i bs hbs
  split
  · rfl
  rename_i hlen5
  split
  · rfl
  rename_i hlife
  split
  · rfl
  rename_i hvis
  exfalso
  rcases h with (hr | ho) | hb | hl | hv
  · rw [hr] at hres
    exact hres rfl
  · rw [ho] at houtcome
    exact Option.noConfusion houtcome
  · exact hlen5 (hb bs hbs)
  · exact hlife hl
  · exact hvis (hv bs hbs)

/-- Witness for C8 at concrete inputs: an unresolved market is skipped. -/
theorem C8_ineligible_market_skipped_witness :
    processMarket [constDetector 1 1] (fun _ => none) (fun _ => none)
      BACKTEST_CUTOFF_FRACTION BState.init ⟨"m8", 0, 100, false, none⟩
      = BState.init :=
  C8_ineligible_market_skipped [constDetector 1 1] (fun _ => none)
    (fun _ => none) BACKTEST_CUTOFF_FRACTION BState.init
    ⟨"m8", 0, 100, false, none⟩ (Or.inl (Or.inl rfl))

/-- C2 counterexample: the claim says a run that finds zero eligible
markets "explicitly reports no markets evaluated and never yields a
silently-zeroed or fabricated ComboResult".  The code does the opposite:
`backtest_combo` on an empty market list (zero eligible markets) returns
a normally-constructed ComboResults with accuracy = edge_vs_market =
false_positive_rate = 0 (src/engine/backtest.py lines 125-139 have no
zero-market report path), i.e. exactly a silently-zeroed result. -/
theorem C2_zero_markets_counterexample :
    backtest_combo registryD5 ["D5"] [] (fun _ => none) (fun _ => none)
        BACKTEST_CUTOFF_FRACTION = Except.ok crEmptyRun
      ∧ crEmptyRun.accuracy = 0 ∧ crEmptyRun.edge_vs_market = 0
      ∧ crEmptyRun.false_positive_rate = 0 := by
  refine ⟨?_, rfl, rfl, rfl⟩
  unfold backtest_combo
  have hl : lookupMethods registryD5 ["D5"] = some [constDetector 1 1] := by
    simp [lookupMethods, registryD5]
  rw [hl]
  simp only [List.foldl]
  unfold mkComboResults rawComboResults comboId crEmptyRun
  norm_num [BState.init, calculate_fitness, FITNESS_W_ACCURACY,
    FITNESS_W_EDGE, FITNESS_W_FALSE_POS, FITNESS_W_COMPLEXITY]
  rfl

/-- C2 amended: a run of `backtest_combo` whose market loop counts zero
eligible markets returns (rather than reports) a ComboResults whose
accuracy, edge_vs_market and false_positive_rate are all zero and whose
fitness is the pure complexity penalty — a silently-zeroed result. -/
theorem C2_zero_markets_amended (registry : String → Option MethodFn)
    (combo : List String) (markets : List Market)
    (bets_by_market : String → Option (List Bet))
    (wallets : String → Option Wallet) (cutoff_fraction : ℚ)
    (fns : List MethodFn)
    (hlook : lookupMethods registry combo = some fns)
    (hzero : (markets.foldl
        (processMarket fns bets_by_market wallets cutoff_fraction)
        BState.init).total_markets = 0) :
    ∃ cr, backtest_combo registry combo markets bets_by_market wallets
        cutoff_fraction = Except.ok cr
      ∧ cr.accuracy = 0 ∧ cr.edge_vs_market = 0
      ∧ cr.false_positive_rate = 0
      ∧ cr.fitness_score
          = -(((combo.length : ℚ) / 24) * FITNESS_W_COMPLEXITY) := by
  have hinv := foldl_processMarket_inv fns bets_by_market wallets
    cutoff_fraction markets BState.init BInv_init
  have hhc : (markets.foldl
      (processMarket fns bets_by_market wallets cutoff_fraction)
      BState.init).high_confidence_preds = 0 := by
    have := hinv.2.2.1
    omega
  refine ⟨mkComboResults combo
    (markets.foldl (processMarket fns bets_by_market wallets cutoff_fraction)
      BState.init), ?_, ?_, ?_, ?_, ?_⟩
  · unfold backtest_combo
    rw [hlook]
  · simp [mkComboResults, rawComboResults, hzero]
  · simp [mkComboResults, rawComboResults, hzero]
  · simp [mkComboResults, rawComboResults, hhc]
  · simp [mkComboResults, rawComboResults, calculate_fitness, hzero, hhc]

/-- Witness for the amended C2 at a concrete input: combo ["D5"] on an
empty market list. -/
theorem C2_zero_markets_amended_witness :
    ∃ cr, backtest_combo registryD5 ["D5"] [] (fun _ => none) (fun _ => none)
        BACKTEST_CUTOFF_FRACTION = Except.ok cr
      ∧ cr.accuracy = 0 ∧ cr.edge_vs_market = 0
      ∧ cr.false_positive_rate = 0
      ∧ cr.fitness_score
          = -((((["D5"] : List String).length : ℚ) / 24)
              * FITNESS_W_COMPLEXITY) :=
  C2_zero_markets_amended registryD5 ["D5"] [] (fun _ => none) (fun _ => none)
    BACKTEST_CUTOFF_FRACTION [constDetector 1 1]
    (by simp [lookupMethods, registryD5]) rfl

/-- C7: every ComboResults returned by `backtest_combo` has
`accuracy ∈ [0,1]`, `edge_vs_market ≥ 0` and
`false_positive_rate ∈ [0,1]`; in particular every counted false
positive is also a counted high-confidence prediction
(src/engine/backtest.py lines 110-115), which is what keeps
`false_positives ≤ high_confidence_preds`. -/
theorem C7_result_ranges (registry : String → Option MethodFn)
    (combo : List String) (markets : List Market)
    (bets_by_market : String → Option (List Bet))
    (wallets : String → Option Wallet) (cutoff_fraction : ℚ)
    (cr : ComboResults)
    (h : backtest_combo registry combo markets bets_by_market wallets
      cutoff_fraction = Except.ok cr) :
    0 ≤ cr.accuracy ∧ cr.accuracy ≤ 1
      ∧ 0 ≤ cr.edge_vs_market
      ∧ 0 ≤ cr.false_positive_rate ∧ cr.false_positive_rate ≤ 1 := by
  unfold backtest_combo at h
  cases hl : lookupMethods registry combo with
  | none => rw [hl] at h; cases h
  | some fns =>
    rw [hl] at h
    simp only [Except.ok.injEq] at h
    have hinv := foldl_processMarket_inv fns bets_by_market wallets
      cutoff_fraction markets BState.init BInv_init
    have hr := rawComboResults_ranges combo hinv
    rw [← h]
    simpa [mkComboResults] using hr

/-- Witness for C7: the backtest of ["D5"] on the empty market list
returns a result, and its statistics are in range. -/
theorem C7_result_ranges_witness :
    0 ≤ crEmptyRun.accuracy ∧ crEmptyRun.accuracy ≤ 1
      ∧ 0 ≤ crEmptyRun.edge_vs_market
      ∧ 0 ≤ crEmptyRun.false_positive_rate
      ∧ crEmptyRun.false_positive_rate ≤ 1 :=
  C7_result_ranges registryD5 ["D5"] [] (fun _ => none) (fun _ => none)
    BACKTEST_CUTOFF_FRACTION crEmptyRun
    (by
      unfold backtest_combo
      have hl : lookupMethods registryD5 ["D5"] = some [constDetector 1 1] := by
        simp [lookupMethods, registryD5]
      rw [hl]
      simp only [List.foldl]
      unfold mkComboResults rawComboResults comboId crEmptyRun
      norm_num [BState.init, calculate_fitness, FITNESS_W_ACCURACY,
        FITNESS_W_EDGE, FITNESS_W_FALSE_POS, FITNESS_W_COMPLEXITY]
      rfl)

/-! ### The current_bets cursor (claim C5) -/

/-- The per-market evaluation as claim C5 reads the spec (§4.3): the
words "(and for the final bet-volume-based comparisons)" place the
naive market-odds baseline on the final `current_bets` cursor.  This
definition follows those words; it differs from `processMarket` (the
code) only in the bets handed to `scoreMarket` for the baseline. -/
def processMarketC5claim (method_fns : List MethodFn)
    (bets_by_market : String → Option (List Bet))
    (wallets : String → Option Wallet) (cutoff_fraction : ℚ)
    (st : BState) (market : Market) : BState :=
  if !market.resolved then st else
  match market.outcome with
  | none => st
  | some actual =>
    match bets_by_market market.id with
    | none => st
    | some market_bets =>
      if market_bets.length < 5 then st else
      if lifespanOf market ≤ 0 then st else
      if (visibleOf market market_bets cutoff_fraction).length < 3 then st else
      if (chainResultsOf method_fns market wallets
            (capBets (visibleOf market market_bets cutoff_fraction))).isEmpty then st
      else
        scoreMarket st
          (aggregate_signals (chainResultsOf method_fns market wallets
            (capBets (visibleOf market market_bets cutoff_fraction)))).1
          (aggregate_signals (chainResultsOf method_fns market wallets
            (capBets (visibleOf market market_bets cutoff_fraction)))).2
          actual
          (run_chain market
            (restrictWallets wallets
              (capBets (visibleOf market market_bets cutoff_fraction)))
            method_fns
            (capBets (visibleOf market market_bets cutoff_fraction))).2

/-- A resolved-YES market for the C5 counterexample. -/
def mC5 : Market := ⟨"m5", 0, 100, true, some "YES"⟩

/-- Five visible bets on `mC5`: median odds 2/5 (market-implied NO). -/
def betsC5 : List Bet :=
  [⟨"m5", "W1", "YES", 100, 2/5, 10⟩,
   ⟨"m5", "W2", "YES", 100, 2/5, 20⟩,
   ⟨"m5", "W3", "YES", 100, 2/5, 30⟩,
   ⟨"m5", "W4", "YES", 100, 9/10, 40⟩,
   ⟨"m5", "W5", "YES", 100, 9/10, 50⟩]

/-- The two high-odds bets a filtering detector forwards: median odds
9/10 (market-implied YES). -/
def highBetsC5 : List Bet :=
  [⟨"m5", "W4", "YES", 100, 9/10, 40⟩,
   ⟨"m5", "W5", "YES", 100, 9/10, 50⟩]

/-- A detector that signals YES with full confidence and forwards only
the high-odds bets. -/
def filterDet : MethodFn := fun _ _ _ => some ⟨1, 1, highBetsC5⟩

def bbmC5 : String → Option (List Bet) :=
  fun mid => if mid = "m5" then some betsC5 else none

/-- C5 counterexample: the claim says `current_bets` (here: the
detector's `filtered_bets`) is used "for the final bet-volume-based
comparisons (the naive market-odds baseline)".  The code computes the
baseline from `visible_bets` instead (src/engine/backtest.py line 117:
`yes_probs = [b.odds for b in visible_bets]`).  On `mC5` the median of
the visible odds is 2/5 (implied NO, so the correct YES prediction earns
edge 1) while the median of the final cursor's odds is 9/10 (implied
YES, so the claim's reading earns no edge): the two evaluations
disagree. -/
theorem C5_baseline_counterexample :
    processMarket [filterDet] bbmC5 (fun _ => none) (7/10) BState.init mC5
        = ⟨1, 1, 1, 0, 1⟩
      ∧ processMarketC5claim [filterDet] bbmC5 (fun _ => none) (7/10)
          BState.init mC5 = ⟨1, 1, 0, 0, 1⟩
      ∧ processMarket [filterDet] bbmC5 (fun _ => none) (7/10) BState.init mC5
        ≠ processMarketC5claim [filterDet] bbmC5 (fun _ => none) (7/10)
          BState.init mC5 := by
  have hcode : processMarket [filterDet] bbmC5 (fun _ => none) (7/10)
      BState.init mC5 = ⟨1, 1, 1, 0, 1⟩ := by
    norm_num [processMarket, mC5, bbmC5, betsC5, lifespanOf, visibleOf,
      cutoffTime, capBets, MAX_BETS_PER_MARKET, chainResultsOf, run_chain,
      filterDet, highBetsC5, aggregate_signals, scoreMarket, predictedOf,
      impliedOf, marketOdds, medianQ, List.insertionSort, List.orderedInsert,
      List.filter, BState.init, min_def, max_def]
    all_goals decide
  have hclaim : processMarketC5claim [filterDet] bbmC5 (fun _ => none) (7/10)
      BState.init mC5 = ⟨1, 1, 0, 0, 1⟩ := by
    norm_num [processMarketC5claim, mC5, bbmC5, betsC5, lifespanOf, visibleOf,
      cutoffTime, capBets, MAX_BETS_PER_MARKET, chainResultsOf, run_chain,
      filterDet, highBetsC5, aggregate_signals, scoreMarket, predictedOf,
      impliedOf, marketOdds, medianQ, List.insertionSort, List.orderedInsert,
      List.filter, BState.init, min_def, max_def]
  refine ⟨hcode, hclaim, ?_⟩
  rw [hcode, hclaim]
  intro h
  exact absurd (congrArg BState.edge_sum h) (by norm_num)

/-- Modelled from the spec §4.3 (amended reading): the results collected
by running the detectors in the combo's given order against a shared
cursor, where a result carrying non-empty `filtered_bets` replaces the
cursor for all subsequent detectors and a raising detector leaves it
unchanged. -/
def specResults (market : Market) (wallets : String → Option Wallet) :
    List MethodFn → List Bet → List MethodResult
  | [], _ => []
  | f :: rest, cursor =>
    match f market cursor wallets with
    | some r => r :: specResults market wallets rest
        (if r.filtered_bets.isEmpty then cursor else r.filtered_bets)
    | none => specResults market wallets rest cursor

/-- Modelled from the spec §4.3 (amended reading): the `current_bets`
cursor after the whole chain has run. -/
def specCursor (market : Market) (wallets : String → Option Wallet) :
    List MethodFn → List Bet → List Bet
  | [], cursor => cursor
  | f :: rest, cursor =>
    match f market cursor wallets with
    | some r => specCursor market wallets rest
        (if r.filtered_bets.isEmpty then cursor else r.filtered_bets)
    | none => specCursor market wallets rest cursor

/-- The code's chain is exactly the spec's cursor discipline: results and
final cursor agree with the two independent spec-side recursions. -/
theorem run_chain_eq_spec (market : Market)
    (wallets : String → Option Wallet) :
    ∀ (fns : List MethodFn) (cursor : List Bet),
      run_chain market wallets fns cursor
        = (specResults market wallets fns cursor,
           specCursor market wallets fns cursor)
  | [], _ => rfl
  | f :: rest, cursor => by
    cases hf : f market cursor wallets with
    | none =>
      rw [run_chain_cons_none hf]
      simp only [specResults, specCursor]
      rw [hf]
      exact run_chain_eq_spec market wallets rest cursor
    | some r =>
      rw [run_chain_cons_some hf]
      simp only [specResults, specCursor]
      rw [hf, run_chain_eq_spec market wallets rest]

/-- Chain compositionality: running `pre ++ post` collects `pre`'s
results, threads `pre`'s final cursor into `post`, and appends `post`'s
results — detectors execute in the combo's given order against the
shared cursor. -/
theorem run_chain_append (market : Market)
    (wallets : String → Option Wallet) :
    ∀ (pre post : List MethodFn) (bets : List Bet),
      run_chain market wallets (pre ++ post) bets
        = ((run_chain market wallets pre bets).1
            ++ (run_chain market wallets post
                  (run_chain market wallets pre bets).2).1,
           (run_chain market wallets post
              (run_chain market wallets pre bets).2).2)
  | [], post, bets => by simp [run_chain]
  | f :: pre, post, bets => by
    rw [List.cons_append]
    cases hf : f market bets wallets with
    | none =>
      rw [run_chain_cons_none hf, run_chain_cons_none hf,
        run_chain_append market wallets pre post]
    | some r =>
      rw [run_chain_cons_some hf, run_chain_cons_some hf,
        run_chain_append market wallets pre post]
      simp

/-- Modelled from the spec §4.3 with the amended baseline: evaluate one
market by collecting `specResults`, aggregating them, and scoring with
the naive market-odds baseline computed from the capped visible bets
(not from the cursor). -/
def processMarketC5amended (method_fns : List MethodFn)
    (bets_by_market : String → Option (List Bet))
    (wallets : String → Option Wallet) (cutoff_fraction : ℚ)
    (st : BState) (market : Market) : BState :=
  if !market.resolved then st else
  match market.outcome with
  | none => st
  | some actual =>
    match bets_by_market market.id with
    | none => st
    | some market_bets =>
      if market_bets.length < 5 then st else
      if lifespanOf market ≤ 0 then st else
      if (visibleOf market market_bets cutoff_fraction).length < 3 then st else
      if (specResults market
            (restrictWallets wallets
              (capBets (visibleOf market market_bets cutoff_fraction)))
            method_fns
            (capBets (visibleOf market market_bets cutoff_fraction))).isEmpty
      then st
      else
        scoreMarket st
          (aggregate_signals (specResults market
            (restrictWallets wallets
              (capBets (visibleOf market market_bets cutoff_fraction)))
            method_fns
            (capBets (visibleOf market market_bets cutoff_fraction)))).1
          (aggregate_signals (specResults market
            (restrictWallets wallets
              (capBets (visibleOf market market_bets cutoff_fraction)))
            method_fns
            (capBets (visibleOf market market_bets cutoff_fraction)))).2
          actual
          (capBets (visibleOf market market_bets cutoff_fraction))

/-- C5 (amended): detectors execute in the combo's given order against a
shared `current_bets` cursor initialized to `visible_bets`; after each
detector, non-empty `filtered_bets` replaces the cursor for all
subsequent detectors and otherwise the cursor is unchanged — but the
final naive market-odds baseline is computed from `visible_bets`, not
from the cursor.  Stated as: (1) the code's chain equals the spec-side
cursor/results recursions, (2) the chain is compositional in the stated
cursor-threading sense, and (3) the per-market evaluation equals the
amended spec-side evaluation that scores against the visible bets. -/
theorem C5_cursor_threading_amended :
    (∀ (market : Market) (wallets : String → Option Wallet)
        (fns : List MethodFn) (cursor : List Bet),
      run_chain market wallets fns cursor
        = (specResults market wallets fns cursor,
           specCursor market wallets fns cursor))
    ∧ (∀ (market : Market) (wallets : String → Option Wallet)
        (pre post : List MethodFn) (bets : List Bet),
      run_chain market wallets (pre ++ post) bets
        = ((run_chain market wallets pre bets).1
            ++ (run_chain market wallets post
                  (run_chain market wallets pre bets).2).1,
           (run_chain market wallets post
              (run_chain market wallets pre bets).2).2))
    ∧ (∀ (method_fns : List MethodFn)
        (bets_by_market : String → Option (List Bet))
        (wallets : String → Option Wallet) (cutoff_fraction : ℚ)
        (st : BState) (market : Market),
      processMarket method_fns bets_by_market wallets cutoff_fraction
          st market
        = processMarketC5amended method_fns bets_by_market wallets
            cutoff_fraction st market) := by
  refine ⟨run_chain_eq_spec, run_chain_append, ?_⟩
  intro method_fns bets_by_market wallets cutoff_fraction st market
  unfold processMarket processMarketC5amended chainResultsOf
  simp only [run_chain_eq_spec]

/-! ### `split_holdout`, src/engine/backtest.py lines 33-43 -/

/-- The sort key of `sorted(markets, key=lambda m: m.created_at)`. -/
def byCreated (a b : Market) : Prop := a.created_at ≤ b.created_at

instance : DecidableRel byCreated :=
  fun a b => inferInstanceAs (Decidable (a.created_at ≤ b.created_at))

instance : IsTotal Market byCreated :=
  ⟨fun a b => le_total a.created_at b.created_at⟩

instance : IsTrans Market byCreated :=
  ⟨fun _ _ _ hab hbc => le_trans hab hbc⟩

/-- `split_holdout`, src/engine/backtest.py lines 33-43: return `([], [])`
on the empty list, otherwise sort ascending by `created_at` (a stable
sort, like Python\'s) and split at `int(len * (1 - holdout_fraction))`
(truncation = floor for the non-negative values a fraction produces). -/
def split_holdout (markets : List Market) (holdout_fraction : ℚ) :
    List Market × List Market :=
  if markets.isEmpty then ([], [])
  else
    ((markets.insertionSort byCreated).take
        (Int.floor ((markets.length : ℚ) * (1 - holdout_fraction))).toNat,
     (markets.insertionSort byCreated).drop
        (Int.floor ((markets.length : ℚ) * (1 - holdout_fraction))).toNat)

/-- C6: for every market list and holdout fraction f ∈ [0,1],
`split_holdout` is size-exact — `len(train) = floor(n·(1−f))` — and
temporally ordered: every train market\'s `created_at` is at most every
holdout market\'s `created_at` (equivalently
`max(train.created_at) ≤ min(holdout.created_at)` when both parts are
non-empty). -/
theorem C6_split_holdout_spec (markets : List Market) (f : ℚ)
    (h0 : 0 ≤ f) (h1 : f ≤ 1) :
    (((split_holdout markets f).1.length : ℤ)
        = Int.floor ((markets.length : ℚ) * (1 - f)))
    ∧ ∀ x ∈ (split_holdout markets f).1, ∀ y ∈ (split_holdout markets f).2,
        x.created_at ≤ y.created_at := by
  by_cases hemp : markets.isEmpty
  · have hnil : markets = [] := List.isEmpty_iff.mp hemp
    subst hnil
    simp [split_holdout]
  · have hfl0 : 0 ≤ Int.floor ((markets.length : ℚ) * (1 - f)) :=
      Int.floor_nonneg.mpr
        (mul_nonneg (Nat.cast_nonneg _) (by linarith))
    have hfln : Int.floor ((markets.length : ℚ) * (1 - f))
        ≤ (markets.length : ℤ) := by
      have hle : (markets.length : ℚ) * (1 - f) ≤ (markets.length : ℚ) := by
        nlinarith [Nat.cast_nonneg (α := ℚ) markets.length]
      calc Int.floor ((markets.length : ℚ) * (1 - f))
          ≤ Int.floor ((markets.length : ℚ)) := Int.floor_le_floor hle
        _ = (markets.length : ℤ) := Int.floor_natCast _
    have hidx : ((Int.floor ((markets.length : ℚ) * (1 - f))).toNat : ℤ)
        = Int.floor ((markets.length : ℚ) * (1 - f)) :=
      Int.toNat_of_nonneg hfl0
    have hidxle : (Int.floor ((markets.length : ℚ) * (1 - f))).toNat
        ≤ markets.length := by omega
    have hsorted : List.Sorted byCreated
        (markets.insertionSort byCreated) :=
      List.sorted_insertionSort byCreated markets
    constructor
    · rw [split_holdout, if_neg hemp]
      simp only [List.length_take, List.length_insertionSort]
      rw [min_eq_left hidxle]
      exact hidx
    · intro x hx y hy
      rw [split_holdout, if_neg hemp] at hx hy
      have hpw : List.Pairwise byCreated
          ((markets.insertionSort byCreated).take
              (Int.floor ((markets.length : ℚ) * (1 - f))).toNat
            ++ (markets.insertionSort byCreated).drop
              (Int.floor ((markets.length : ℚ) * (1 - f))).toNat) := by
        rw [List.take_append_drop]
        exact hsorted
      exact (List.pairwise_append.mp hpw).2.2 x hx y hy

/-- Five concrete markets (unsorted creation times) for the C6 witness. -/
def marketsC6 : List Market :=
  [⟨"a", 30, 100, true, some "YES"⟩,
   ⟨"b", 10, 100, true, some "NO"⟩,
   ⟨"c", 20, 100, false, none⟩,
   ⟨"d", 40, 100, true, some "YES"⟩,
   ⟨"e", 0, 100, true, some "NO"⟩]

/-- Witness for C6 at f = 1/5 on five markets: the train part has
floor(5·(4/5)) = 4 markets and precedes the holdout part in time. -/
theorem C6_split_holdout_spec_witness :
    (((split_holdout marketsC6 (1/5)).1.length : ℤ)
        = Int.floor ((marketsC6.length : ℚ) * (1 - 1/5)))
    ∧ ∀ x ∈ (split_holdout marketsC6 (1/5)).1,
      ∀ y ∈ (split_holdout marketsC6 (1/5)).2,
        x.created_at ≤ y.created_at :=
  C6_split_holdout_spec marketsC6 (1/5) (by norm_num) (by norm_num)

/-! ### Tier-3 hill-climbing, src/engine/combinator.py lines 122-177 -/

/-- The addition scan of Tier 3 (src/engine/combinator.py lines
139-152): iterate the full method universe in order, skip ids already in
the combo, and accept the first candidate whose backtest fitness
strictly exceeds the current fitness. -/
def tryAdd (bt : List String → ComboResults) :
    List String → List String → ℚ → Option (List String)
  | [], _, _ => none
  | m :: rest, current, current_fitness =>
    if m ∈ current then tryAdd bt rest current current_fitness
    else if (bt (current ++ [m])).fitness_score > current_fitness then
      some (current ++ [m])
    else tryAdd bt rest current current_fitness

/-- The removal scan of Tier 3 (src/engine/combinator.py lines 157-168):
iterate the current combo in order and accept the first single-id
removal (`[m for m in current if m != method]`) that strictly improves
fitness. -/
def tryRemove (bt : List String → ComboResults) :
    List String → List String → ℚ → Option (List String)
  | [], _, _ => none
  | m :: rest, current, current_fitness =>
    if (bt (current.filter (fun x => x ≠ m))).fitness_score
        > current_fitness then
      some (current.filter (fun x => x ≠ m))
    else tryRemove bt rest current current_fitness

/-- One iteration of the `while improved` loop (src/engine/combinator.py
lines 138-168): the addition scan first; if it finds nothing, the
removal scan, attempted only when the combo has more than one member. -/
def climbStep (bt : List String → ComboResults)
    (all_method_ids : List String) (current : List String)
    (current_fitness : ℚ) : Option (List String) :=
  match tryAdd bt all_method_ids current current_fitness with
  | some c => some c
  | none =>
    if current.length > 1 then
      tryRemove bt current current current_fitness
    else none

/-- The `while improved` loop with explicit fuel.  The source loop runs
until no improving move exists; every accepted move strictly increases
the backtest fitness over a finite reachable combo space, so a large
enough fuel is faithful, and the C9 theorem holds for every fuel.  On an
accepted move the current fitness becomes the accepted candidate\'s
backtest fitness (lines 149 and 165). -/
def climb (bt : List String → ComboResults) (all_method_ids : List String) :
    Nat → List String → ℚ → List String
  | 0, current, _ => current
  | fuel + 1, current, current_fitness =>
    match climbStep bt all_method_ids current current_fitness with
    | none => current
    | some c => climb bt all_method_ids fuel c (bt c).fitness_score

/-- The per-seed body of `tier3` (src/engine/combinator.py lines
134-171): hill-climb from the seed\'s method list and stored fitness,
then re-backtest the final combo (line 170). -/
def tier3_seed (bt : List String → ComboResults)
    (all_method_ids : List String) (fuel : Nat) (cr : ComboResults) :
    ComboResults :=
  bt (climb bt all_method_ids fuel cr.methods_used cr.fitness_score)

/-- An addition scan over ids none of which improves returns nothing. -/
theorem tryAdd_none (bt : List String → ComboResults) :
    ∀ (ids current : List String) (cf : ℚ),
      (∀ m ∈ ids, m ∉ current →
        ¬((bt (current ++ [m])).fitness_score > cf)) →
      tryAdd bt ids current cf = none
  | [], _, _, _ => rfl
  | m :: rest, current, cf, h => by
    unfold tryAdd
    by_cases hm : m ∈ current
    · rw [if_pos hm]
      exact tryAdd_none bt rest current cf
        (fun x hx => h x (List.mem_cons_of_mem m hx))
    · rw [if_neg hm, if_neg (h m (List.mem_cons_self m rest) hm)]
      exact tryAdd_none bt rest current cf
        (fun x hx => h x (List.mem_cons_of_mem m hx))

/-- A removal scan over ids none of whose removals improves returns
nothing. -/
theorem tryRemove_none (bt : List String → ComboResults) :
    ∀ (ids current : List String) (cf : ℚ),
      (∀ m ∈ ids,
        ¬((bt (current.filter (fun x => x ≠ m))).fitness_score > cf)) →
      tryRemove bt ids current cf = none
  | [], _, _, _ => rfl
  | m :: rest, current, cf, h => by
    unfold tryRemove
    rw [if_neg (h m (List.mem_cons_self m rest))]
    exact tryRemove_none bt rest current cf
      (fun x hx => h x (List.mem_cons_of_mem m hx))

/-- C9: a seed already at a local optimum — no single addition of an
unused id and, when the combo has more than one member, no single
removal strictly increases fitness — is returned by Tier-3 hill-climbing
unchanged: the loop finds no improving move on its first iteration
(whatever the fuel), and the final re-backtest reproduces the seed\'s
own ComboResults (`hseed`: the seed is the backtest of its own method
list, which is how Tier 2 produced it). -/
theorem C9_tier3_local_optimum (bt : List String → ComboResults)
    (all_method_ids : List String) (fuel : Nat) (cr : ComboResults)
    (hseed : bt cr.methods_used = cr)
    (hadd : ∀ m ∈ all_method_ids, m ∉ cr.methods_used →
      (bt (cr.methods_used ++ [m])).fitness_score ≤ cr.fitness_score)
    (hrem : 1 < cr.methods_used.length →
      ∀ m ∈ cr.methods_used,
        (bt (cr.methods_used.filter (fun x => x ≠ m))).fitness_score
          ≤ cr.fitness_score) :
    tier3_seed bt all_method_ids fuel cr = cr := by
  have hstep : climbStep bt all_method_ids cr.methods_used cr.fitness_score
      = none := by
    unfold climbStep
    rw [tryAdd_none bt all_method_ids cr.methods_used cr.fitness_score
      (fun m hm hnot => not_lt.mpr (hadd m hm hnot))]
    show (if cr.methods_used.length > 1 then
        tryRemove bt cr.methods_used cr.methods_used cr.fitness_score
      else none) = none
    split_ifs with hlen
    · exact tryRemove_none bt cr.methods_used cr.methods_used
        cr.fitness_score (fun m hm => not_lt.mpr (hrem hlen m hm))
    · rfl
  have hclimb : climb bt all_method_ids fuel cr.methods_used
      cr.fitness_score = cr.methods_used := by
    cases fuel with
    | zero => rfl
    | succ n =>
      unfold climb
      rw [hstep]
  unfold tier3_seed
  rw [hclimb, hseed]

/-- A concrete deterministic backtest oracle for the C9 witness: fitness
1 for single-method combos, 0 otherwise. -/
def btC9 : List String → ComboResults := fun ids =>
  { combo_id := ""
    methods_used := ids
    accuracy := 0
    edge_vs_market := 0
    false_positive_rate := 0
    complexity := ids.length
    fitness_score := if ids.length = 1 then 1 else 0 }

/-- The C9 witness seed: the backtest of the single-method combo
["S1"], which is locally optimal for `btC9`. -/
def crC9 : ComboResults := btC9 ["S1"]

/-- Witness for C9 at a concrete input: the locally-optimal seed ["S1"]
survives Tier-3 hill-climbing unchanged (fuel 7). -/
theorem C9_tier3_local_optimum_witness :
    tier3_seed btC9 ["S1", "S3"] 7 crC9 = crC9 :=
  C9_tier3_local_optimum btC9 ["S1", "S3"] 7 crC9 rfl
    (by
      intro m hm hnot
      norm_num [btC9, crC9])
    (by
      intro hlen
      exact absurd hlen (by norm_num [btC9, crC9]))

end OracleBot
